import Mathlib

/-!
# async-ttl: a shallow embedding

Verification of the `async-ttl` crate: a concurrent in-memory cache where
every entry expires after a single fixed time-to-live, evicted by a
background task draining an expiration queue.

Modelling conventions:
* `Instant` and `Duration` are modelled as `Nat` ticks.  Rust `Duration`
  subtraction in the source is the saturating `Duration::saturating_sub`,
  which coincides with `Nat` subtraction.
* The store backend (`CacheMap` trait, implemented for `HashMap` and
  `BTreeMap` in `src/map.rs`) is modelled extensionally as `K → Option V`
  (the `HashMap`/`BTreeMap` observable behaviour: insert overwrites,
  remove deletes, remove of an absent key does nothing).  A second,
  association-list model captures the `BTreeMap` backend concretely.
* `VecDeque<EntryExpire<K>>` is a `List`, front = head, `push_back` is
  append, `pop_front` takes the head.
* The eviction pass (`AsyncTtlExpireTask::run`, inner loop of
  `src/lib.rs` lines 194-206) is modelled with an explicit `now`
  parameter fixed for the pass, and returns `Option`: `none` models the
  `unwrap` panic after `pop_front` on an empty queue.
* Lock acquisitions are modelled as per-operation event traces
  transcribed from the `.write().await` / `.read().await` lines.
-/

/-- Configuration (`src/config.rs`, `AsyncTtlConfig`): the fixed TTL and
the two tuning delays, as `Nat` ticks. -/
structure AsyncTtlConfig where
  expires_after : Nat
  empty_delay : Nat
  delta_delay : Nat
deriving DecidableEq, Repr

/-- An expiration record (`src/lib.rs`, `EntryExpire<K>`): key, creation
instant and the TTL copied from the configuration at insertion time. -/
structure EntryExpire (K : Type) where
  key : K
  created_at : Nat
  expires_after : Nat
deriving DecidableEq, Repr

/-- `EntryExpire::expires_in` (`src/lib.rs` lines 135-141): elapsed time
is `now - created_at` and the result is
`expires_after.saturating_sub(elapsed)`; `Nat` subtraction is exactly
saturating subtraction.  `now` is the instant at which the Rust code
calls `Instant::elapsed`. -/
def EntryExpire.expires_in (e : EntryExpire K) (now : Nat) : Nat :=
  e.expires_after - (now - e.created_at)

/-- An entry is due when `expires_in().is_zero()` holds. -/
def EntryExpire.isDue (now : Nat) (e : EntryExpire K) : Bool :=
  e.expires_in now == 0

/-- Extensional model of the `CacheMap` storage backend. -/
abbrev Store (K V : Type) := K → Option V

/-- `CacheMap::insert_cache` for the map backends: overwrite-on-insert. -/
def Store.insert_cache [DecidableEq K] (d : Store K V) (k : K) (v : V) :
    Store K V :=
  fun q => if q = k then some v else d q

/-- `CacheMap::remove_cache` for the map backends: delete the key,
nothing happens when it is absent. -/
def Store.remove_cache [DecidableEq K] (d : Store K V) (k : K) :
    Store K V :=
  fun q => if q = k then none else d q

/-- Concrete association-list model of the `BTreeMap` backend
(`src/map.rs` lines 37-48); keys are unique in a well-formed map. -/
abbrev BTreeModel (K V : Type) := List (K × V)

/-- `BTreeMap::remove` drops the entry with the given key; on an absent
key it returns `None` and leaves the map unchanged. -/
def BTreeModel.remove_cache [DecidableEq K] (m : BTreeModel K V) (k : K) :
    BTreeModel K V :=
  m.eraseP (fun p => p.1 == k)

/-- The mutable state of an `AsyncTtl<T, K, V>` cache (`src/lib.rs`
lines 59-72): the expiration queue (`expires`) and the inner data map
(`data`).  The two `RwLock`s are modelled by the operations below acting
atomically on this state. -/
structure CacheState (K V : Type) where
  expires : List (EntryExpire K)
  data : Store K V

/-- The empty cache produced by `AsyncTtl::new`. -/
def CacheState.empty (K V : Type) : CacheState K V :=
  { expires := [], data := fun _ => none }

/-- `AsyncTtl::read` (`src/lib.rs` lines 95-97): read access to the
underlying data map. -/
def CacheState.read (s : CacheState K V) : Store K V :=
  s.data

/-- `AsyncTtl::insert` (`src/lib.rs` lines 100-112): under both write
locks, insert the value into the data map and push an expiration record
`{key, created_at := now, expires_after := config.expires_after}` at the
back of the queue. -/
def CacheState.insert [DecidableEq K] (cfg : AsyncTtlConfig) (now : Nat)
    (s : CacheState K V) (k : K) (v : V) : CacheState K V :=
  { expires := s.expires ++ [⟨k, now, cfg.expires_after⟩],
    data := s.data.insert_cache k v }

/-- The guard of the inner eviction loop (`src/lib.rs` lines 195-198):
`expires.get(0).map(|e| e.expires_in().is_zero()).unwrap_or(false)`. -/
def dueCheck (now : Nat) (q : List (EntryExpire K)) : Bool :=
  (q[0]?.map fun e => e.expires_in now == 0).getD false

/-- The inner eviction loop (`src/lib.rs` lines 194-206): while the due
check on the front record succeeds, `pop_front().unwrap()` and remove
the popped key from the data map; stop at the first non-due front.
`none` models the `unwrap` panicking, i.e. the guard succeeding on an
empty queue. -/
def evictPass [DecidableEq K] (now : Nat) :
    List (EntryExpire K) → Store K V →
      Option (List (EntryExpire K) × Store K V)
  | [], d => if dueCheck now ([] : List (EntryExpire K)) then none else some ([], d)
  | e :: rest, d =>
    if dueCheck now (e :: rest) then
      evictPass now rest (d.remove_cache e.key)
    else
      some (e :: rest, d)

/-- Sleep-duration computation at the top of each `run` iteration
(`src/lib.rs` lines 176-184): `expires_in + delta_delay` for a front
record, `empty_delay` for an empty queue. -/
def sleepDuration (cfg : AsyncTtlConfig) (now : Nat)
    (q : List (EntryExpire K)) : Nat :=
  match q[0]? with
  | some e => e.expires_in now + cfg.delta_delay
  | none => cfg.empty_delay

/-- One observable cache operation: an `insert` call at a given instant,
or one eviction pass of the expiration task waking at a given instant.
Both run under the two write locks, so an execution is a sequence of
such atomic operations. -/
inductive CacheOp (K V : Type) where
  | ins (now : Nat) (key : K) (value : V)
  | evict (now : Nat)

/-- Apply one operation to the cache state.  For `evict`, the pass never
returns `none` (see the characterization `evictPass_eq` below), so the
`getD` default branch is dead. -/
def applyOp [DecidableEq K] (cfg : AsyncTtlConfig) (s : CacheState K V) :
    CacheOp K V → CacheState K V
  | .ins now k v => s.insert cfg now k v
  | .evict now =>
    let r := (evictPass now s.expires s.data).getD (s.expires, s.data)
    { expires := r.1, data := r.2 }

/-- Run a sequence of operations from a starting state. -/
def runOps [DecidableEq K] (cfg : AsyncTtlConfig) (ops : List (CacheOp K V))
    (s : CacheState K V) : CacheState K V :=
  ops.foldl (applyOp cfg) s

/-- The instants of the insert operations of a sequence, in order. -/
def insTimes : List (CacheOp K V) → List Nat
  | [] => []
  | .ins now _ _ :: ops => now :: insTimes ops
  | .evict _ :: ops => insTimes ops

/-- The expiration records created by the insert operations of a
sequence, in insertion order. -/
def insertedEntries (cfg : AsyncTtlConfig) :
    List (CacheOp K V) → List (EntryExpire K)
  | [] => []
  | .ins now k _ :: ops => ⟨k, now, cfg.expires_after⟩ :: insertedEntries cfg ops
  | .evict _ :: ops => insertedEntries cfg ops

/-- The expiration-queue invariant: creation instants are non-decreasing
front-to-back and every record carries the single fixed TTL of the
configuration. -/
def QueueInv (cfg : AsyncTtlConfig) (q : List (EntryExpire K)) : Prop :=
  List.Pairwise (fun a b => a.created_at ≤ b.created_at) q ∧
  ∀ e ∈ q, e.expires_after = cfg.expires_after

/-! ## Lock acquisition traces

Transcribed from the lock acquisition statements of `src/lib.rs`; each
list is the order in which one code path acquires the two locks. -/

/-- The two locks of the cache: the expiration-queue lock (`expires`)
and the data-store lock (`data`). -/
inductive LockId where
  | queue
  | store
deriving DecidableEq, Repr

/-- `AsyncTtl::insert` (`src/lib.rs` lines 103-104): queue write lock,
then store write lock. -/
def insertLockTrace : List LockId := [.queue, .store]

/-- Eviction step of `AsyncTtlExpireTask::run` (`src/lib.rs` lines
190-191): queue write lock, then store write lock. -/
def evictLockTrace : List LockId := [.queue, .store]

/-- `AsyncTtl::read` (`src/lib.rs` line 96): store read lock only. -/
def readLockTrace : List LockId := [.store]

/-- Sleep-duration computation in `AsyncTtlExpireTask::run`
(`src/lib.rs` line 178): queue read lock only. -/
def sleepLockTrace : List LockId := [.queue]

/-- All lock-acquiring code paths of the crate. -/
def lockTraces : List (List LockId) :=
  [insertLockTrace, evictLockTrace, readLockTrace, sleepLockTrace]

/-- A trace acquires both locks. -/
def acquiresBoth (tr : List LockId) : Bool :=
  tr.contains LockId.queue && tr.contains LockId.store

/-- The queue lock comes strictly before the store lock in a trace. -/
def queueBeforeStore (tr : List LockId) : Bool :=
  tr.indexOf LockId.queue < tr.indexOf LockId.store

/-! ## Helper lemmas about the eviction pass -/

theorem dueCheck_nil (now : Nat) :
    dueCheck now ([] : List (EntryExpire K)) = false := rfl

theorem dueCheck_cons (now : Nat) (e : EntryExpire K)
    (rest : List (EntryExpire K)) :
    dueCheck now (e :: rest) = e.isDue now := by
  simp [dueCheck, EntryExpire.isDue]

/-- Characterization of the eviction pass: it never panics, the
resulting queue is the original with its maximal due run of front
records dropped, and the resulting store is the original with the keys
of that run removed. -/
theorem evictPass_eq [DecidableEq K] (now : Nat)
    (q : List (EntryExpire K)) (d : Store K V) :
    evictPass now q d =
      some (q.dropWhile (EntryExpire.isDue now),
        (q.takeWhile (EntryExpire.isDue now)).foldl
          (fun d e => d.remove_cache e.key) d) := by
  induction q generalizing d with
  | nil => simp [evictPass, dueCheck_nil]
  | cons e rest ih =>
    by_cases h : e.isDue now
    · simp [evictPass, dueCheck_cons, h, List.dropWhile_cons,
        List.takeWhile_cons, ih]
    · simp [evictPass, dueCheck_cons, h, List.dropWhile_cons,
        List.takeWhile_cons]

/-- After dropping the due run, the front record (if any) is not due. -/
theorem dueCheck_dropWhile [DecidableEq K] (now : Nat)
    (q : List (EntryExpire K)) :
    dueCheck now (q.dropWhile (EntryExpire.isDue now)) = false := by
  induction q with
  | nil => simp [dueCheck_nil]
  | cons e rest ih =>
    by_cases h : e.isDue now
    · simpa [List.dropWhile_cons, h] using ih
    · simp [List.dropWhile_cons, h, dueCheck_cons]

/-- Removing a run of keys leaves every other key of the store
untouched. -/
theorem foldl_remove_not_mem [DecidableEq K] (l : List (EntryExpire K))
    (d : Store K V) (k : K) (hk : k ∉ l.map (fun e => e.key)) :
    l.foldl (fun d e => d.remove_cache e.key) d k = d k := by
  induction l generalizing d with
  | nil => rfl
  | cons e rest ih =>
    simp only [List.map_cons, List.mem_cons, not_or] at hk
    rw [List.foldl_cons, ih _ hk.2]
    simp [Store.remove_cache, hk.1]

/-! ## Claim theorems -/

/-- C1: for every key `k`, value `v` and cache state, `insert(k, v)`
followed by `read()` yields a store in which `k` maps to `v`. -/
theorem insert_then_read_maps_key [DecidableEq K] (cfg : AsyncTtlConfig)
    (now : Nat) (s : CacheState K V) (k : K) (v : V) :
    (s.insert cfg now k v).read k = some v := by
  simp [CacheState.insert, CacheState.read, Store.insert_cache]

/-- C2: one eviction pass removes exactly the maximal due run at the
front of the queue — it drops the front records while they are due,
removing their keys from the store — and afterwards the queue is empty
or its front record is not due. -/
theorem evict_removes_maximal_due_front [DecidableEq K] (now : Nat)
    (q : List (EntryExpire K)) (d : Store K V) :
    evictPass now q d =
      some (q.dropWhile (EntryExpire.isDue now),
        (q.takeWhile (EntryExpire.isDue now)).foldl
          (fun d e => d.remove_cache e.key) d) ∧
    dueCheck now (q.dropWhile (EntryExpire.isDue now)) = false :=
  ⟨evictPass_eq now q d, dueCheck_dropWhile now q⟩

/-- C3: the `unwrap` after `pop_front` in the eviction pass never
panics: for every queue and store state the pass produces a result (the
`none` outcome, which models the panic, is unreachable because the due
check guards the pop). -/
theorem evict_pop_never_panics [DecidableEq K] (now : Nat)
    (q : List (EntryExpire K)) (d : Store K V) :
    (evictPass now q d).isSome = true := by
  rw [evictPass_eq]
  rfl

/-- C5: for `now ≥ created_at`, `expires_in` equals
`max 0 (ttl - (now - created_at))`, it is zero exactly when the elapsed
time reaches the TTL, and it is never negative. -/
theorem expires_in_formula (e : EntryExpire K) (now : Nat)
    (h : e.created_at ≤ now) :
    ((e.expires_in now : Int) =
      max 0 ((e.expires_after : Int) - ((now : Int) - (e.created_at : Int)))) ∧
    (e.expires_in now = 0 ↔ e.expires_after ≤ now - e.created_at) ∧
    0 ≤ (e.expires_in now : Int) := by
  unfold EntryExpire.expires_in
  refine ⟨?_, by omega, by omega⟩
  rcases le_total ((e.expires_after : Int)) ((now : Int) - (e.created_at : Int)) with hc | hc
  · rw [max_eq_left (by omega)]
    omega
  · rw [max_eq_right (by omega)]
    omega

/-- Witness for C5 at `created_at = 2`, `ttl = 10`, `now = 5`. -/
theorem expires_in_formula_witness :
    (⟨1, 2, 10⟩ : EntryExpire Nat).expires_in 5 = 0 ↔
      (⟨1, 2, 10⟩ : EntryExpire Nat).expires_after ≤
        5 - (⟨1, 2, 10⟩ : EntryExpire Nat).created_at :=
  (expires_in_formula ⟨1, 2, 10⟩ 5 (by decide)).2.1

/-- C7: the sleep duration of a task iteration is
`expires_in(front) + delta_delay` when a front record exists and
`empty_delay` when the queue is empty. -/
theorem sleep_duration_cases (cfg : AsyncTtlConfig) (now : Nat)
    (q : List (EntryExpire K)) :
    (∀ e, q[0]? = some e →
      sleepDuration cfg now q = e.expires_in now + cfg.delta_delay) ∧
    (q = [] → sleepDuration cfg now q = cfg.empty_delay) := by
  cases q with
  | nil => simp [sleepDuration]
  | cons e rest =>
    refine ⟨?_, by simp⟩
    intro f hf
    simp only [List.getElem?_cons_zero, Option.some.injEq] at hf
    subst hf
    simp [sleepDuration]

/-- Witness for C7 with a one-record queue and with the empty queue. -/
theorem sleep_duration_cases_witness :
    sleepDuration ⟨10, 100, 5⟩ 3 [(⟨1, 0, 10⟩ : EntryExpire Nat)] =
      (⟨1, 0, 10⟩ : EntryExpire Nat).expires_in 3 +
        (⟨10, 100, 5⟩ : AsyncTtlConfig).delta_delay :=
  (sleep_duration_cases ⟨10, 100, 5⟩ 3 [⟨1, 0, 10⟩]).1 ⟨1, 0, 10⟩ (by decide)

/-- C8: on a queue whose front record (if any) is not due, the eviction
pass changes neither the queue nor the store, and a second pass on the
result is again a no-op. -/
theorem evict_noop_when_front_not_due [DecidableEq K] (now : Nat)
    (q : List (EntryExpire K)) (d : Store K V)
    (h : dueCheck now q = false) :
    evictPass now q d = some (q, d) ∧
    (∀ r s, evictPass now q d = some (r, s) →
      evictPass now r s = some (r, s)) := by
  have h1 : evictPass now q d = some (q, d) := by
    cases q with
    | nil => simp [evictPass, dueCheck_nil]
    | cons e rest => simp [evictPass, h]
  refine ⟨h1, ?_⟩
  intro r s hr
  rw [h1] at hr
  simp only [Option.some.injEq, Prod.mk.injEq] at hr
  rw [← hr.1, ← hr.2]
  exact h1

/-- Witness for C8: a fresh record (inserted at 0, TTL 10) is not due at
instant 3, so the pass leaves queue and store untouched. -/
theorem evict_noop_when_front_not_due_witness :
    evictPass 3 [(⟨1, 0, 10⟩ : EntryExpire Nat)]
        (fun _ => (none : Option Nat)) =
      some ([⟨1, 0, 10⟩], fun _ => none) :=
  (evict_noop_when_front_not_due 3 [⟨1, 0, 10⟩] (fun _ => none)
    (by decide)).1

/-- C6: overwriting a present key stores the new value and appends a
fresh record at the back of the queue, leaving the old records in place;
and removing an absent key is a no-op for both map backends (the
extensional map model and the association-list `BTreeMap` model). -/
theorem overwrite_appends_and_absent_remove_noop (K V : Type)
    [DecidableEq K] :
    (∀ (cfg : AsyncTtlConfig) (now : Nat) (s : CacheState K V) (k : K)
        (vold vnew : V),
      s.data k = some vold →
      (∃ e ∈ s.expires, e.key = k) →
      (s.insert cfg now k vnew).read k = some vnew ∧
        (s.insert cfg now k vnew).expires =
          s.expires ++ [⟨k, now, cfg.expires_after⟩]) ∧
    (∀ (d : Store K V) (k q : K), d k = none → d.remove_cache k q = d q) ∧
    (∀ (m : BTreeModel K V) (k : K), (∀ p ∈ m, p.1 ≠ k) →
      m.remove_cache k = m) := by
  refine ⟨?_, ?_, ?_⟩
  · intro cfg now s k vold vnew _ _
    exact ⟨by simp [CacheState.insert, CacheState.read, Store.insert_cache],
      rfl⟩
  · intro d k q h
    unfold Store.remove_cache
    by_cases hq : q = k
    · subst hq
      simp [h]
    · simp [hq]
  · intro m k h
    exact List.eraseP_of_forall_not (by intro p hp; simpa using h p hp)

/-- Witness for C6: key 1 holds value 5 with a pending record; the
overwrite with 9 at instant 7 keeps the old record and appends the new
one; removing absent key 4 from both backends is a no-op. -/
theorem overwrite_appends_and_absent_remove_noop_witness :
    (((CacheState.mk [⟨1, 0, 10⟩]
        (fun q => if q = 1 then some 5 else none) : CacheState Nat Nat).insert
          ⟨10, 100, 5⟩ 7 1 9).read 1 = some 9 ∧
      ((CacheState.mk [⟨1, 0, 10⟩]
        (fun q => if q = 1 then some 5 else none) : CacheState Nat Nat).insert
          ⟨10, 100, 5⟩ 7 1 9).expires = [⟨1, 0, 10⟩] ++ [⟨1, 7, 10⟩]) ∧
    Store.remove_cache (fun q => if q = 1 then some 5 else (none : Option Nat))
        4 2 = (fun q => if q = 1 then some 5 else none) 2 ∧
    BTreeModel.remove_cache [((1 : Nat), (5 : Nat))] 4 = [(1, 5)] :=
  ⟨(overwrite_appends_and_absent_remove_noop Nat Nat).1 ⟨10, 100, 5⟩ 7
      (CacheState.mk [⟨1, 0, 10⟩] (fun q => if q = 1 then some 5 else none))
      1 5 9 (by decide) (by decide),
    (overwrite_appends_and_absent_remove_noop Nat Nat).2.1
      (fun q => if q = 1 then some 5 else none) 4 2 (by decide),
    (overwrite_appends_and_absent_remove_noop Nat Nat).2.2
      [(1, 5)] 4 (by decide)⟩

/-- C9: every lock-acquiring code path of the crate that needs both
locks takes the queue lock strictly before the store lock; no path takes
the store lock first while also needing the queue lock. -/
theorem lock_order_queue_before_store (tr : List LockId)
    (h : tr ∈ lockTraces) (hboth : acquiresBoth tr = true) :
    queueBeforeStore tr = true := by
  simp only [lockTraces, List.mem_cons, List.not_mem_nil, or_false] at h
  rcases h with h | h | h | h <;> subst h <;> revert hboth <;> decide

/-- Witness for C9 at the `insert` lock trace. -/
theorem lock_order_queue_before_store_witness :
    queueBeforeStore insertLockTrace = true :=
  lock_order_queue_before_store insertLockTrace (by decide) (by decide)

/-- C10: the eviction pass only shrinks verified state — the remaining
queue is exactly the original queue after the popped run, in the
original order, and every store key other than the popped keys retains
its original value. -/
theorem evict_frame [DecidableEq K] (now : Nat)
    (q : List (EntryExpire K)) (d : Store K V) :
    (evictPass now q d).map Prod.fst =
      some (q.drop (q.takeWhile (EntryExpire.isDue now)).length) ∧
    (∀ k, k ∉ (q.takeWhile (EntryExpire.isDue now)).map (fun e => e.key) →
      (evictPass now q d).map (fun r => r.2 k) = some (d k)) := by
  constructor
  · rw [evictPass_eq]
    have hsplit := List.takeWhile_append_dropWhile (EntryExpire.isDue now) q
    have := List.drop_left (q.takeWhile (EntryExpire.isDue now))
      (q.dropWhile (EntryExpire.isDue now))
    rw [hsplit] at this
    simp [this]
  · intro k hk
    rw [evictPass_eq]
    simp [foldl_remove_not_mem _ _ _ hk]

/-- Witness for C10 at instant 20: records for keys 1 and 2 are due,
the record for key 3 is not, and the value of key 3 is preserved. -/
theorem evict_frame_witness :
    ((3 : Nat) ∉
      (([⟨1, 0, 10⟩, ⟨2, 5, 10⟩, ⟨3, 15, 10⟩] :
          List (EntryExpire Nat)).takeWhile
        (EntryExpire.isDue 20)).map (fun e => e.key)) ∧
    (evictPass 20 [⟨1, 0, 10⟩, ⟨2, 5, 10⟩, ⟨3, 15, 10⟩]
        (fun q => if q ≤ 3 then some q else (none : Option Nat))).map
      (fun r => r.2 3) =
      some ((fun q => if q ≤ 3 then some q else none) 3) :=
  ⟨by decide,
    (evict_frame 20 [⟨1, 0, 10⟩, ⟨2, 5, 10⟩, ⟨3, 15, 10⟩]
      (fun q => if q ≤ 3 then some q else none)).2 3 (by decide)⟩

/-! ## Queue invariant lemmas (C4) -/

theorem queueInv_nil (cfg : AsyncTtlConfig) :
    QueueInv cfg ([] : List (EntryExpire K)) :=
  ⟨List.Pairwise.nil, by simp⟩

/-- Inserting at the back preserves the queue invariant when the new
creation instant is at least every instant already present. -/
theorem queueInv_append (cfg : AsyncTtlConfig) (q : List (EntryExpire K))
    (now : Nat) (k : K) (h : QueueInv cfg q)
    (hle : ∀ e ∈ q, e.created_at ≤ now) :
    QueueInv cfg (q ++ [⟨k, now, cfg.expires_after⟩]) := by
  constructor
  · rw [List.pairwise_append]
    refine ⟨h.1, by simp, ?_⟩
    intro a ha b hb
    simp only [List.mem_singleton] at hb
    subst hb
    exact hle a ha
  · intro e he
    rw [List.mem_append] at he
    rcases he with he | he
    · exact h.2 e he
    · simp only [List.mem_singleton] at he
      subst he
      rfl

/-- The queue invariant is preserved by taking a sublist; in particular
by popping from the front. -/
theorem queueInv_sublist (cfg : AsyncTtlConfig)
    (q2 q : List (EntryExpire K)) (hsub : List.Sublist q2 q)
    (h : QueueInv cfg q) : QueueInv cfg q2 :=
  ⟨h.1.sublist hsub, fun e he => h.2 e (hsub.subset he)⟩

/-- Unfolding of `applyOp` on an eviction, using the characterization of
the pass. -/
theorem applyOp_evict_eq [DecidableEq K] (cfg : AsyncTtlConfig)
    (s : CacheState K V) (now : Nat) :
    applyOp cfg s (CacheOp.evict now) =
      ⟨s.expires.dropWhile (EntryExpire.isDue now),
        (s.expires.takeWhile (EntryExpire.isDue now)).foldl
          (fun d e => d.remove_cache e.key) s.data⟩ := by
  simp [applyOp, evictPass_eq]

/-- Running any sequence of operations from a state satisfying the
queue invariant, with all pending creation instants below every later
insertion instant and insertion instants non-decreasing, keeps the
invariant; and the final queue is a sublist of any list extending the
starting queue by the inserted records. -/
theorem runOps_queueInv [DecidableEq K] (cfg : AsyncTtlConfig)
    (ops : List (CacheOp K V)) :
    ∀ s : CacheState K V,
      QueueInv cfg s.expires →
      (∀ e ∈ s.expires, ∀ t ∈ insTimes ops, e.created_at ≤ t) →
      List.Pairwise (fun a b => a ≤ b) (insTimes ops) →
      QueueInv cfg (runOps cfg ops s).expires ∧
      ∀ l, List.Sublist s.expires l →
        List.Sublist (runOps cfg ops s).expires
          (l ++ insertedEntries cfg ops) := by
  induction ops with
  | nil =>
    intro s hinv _ _
    refine ⟨hinv, fun l hl => ?_⟩
    simpa [runOps, insertedEntries] using hl
  | cons op ops ih =>
    intro s hinv hb hp
    cases op with
    | ins now k v =>
      have hrun : runOps cfg (CacheOp.ins now k v :: ops) s =
          runOps cfg ops (s.insert cfg now k v) := rfl
      have hle : ∀ e ∈ s.expires, e.created_at ≤ now := fun e he =>
        hb e he now (by simp [insTimes])
      have hinv2 : QueueInv cfg (s.insert cfg now k v).expires :=
        queueInv_append cfg s.expires now k hinv hle
      have hpc := List.pairwise_cons.mp (by simpa [insTimes] using hp)
      have hb2 : ∀ e ∈ (s.insert cfg now k v).expires,
          ∀ t ∈ insTimes ops, e.created_at ≤ t := by
        intro e he t ht
        have he2 : e ∈ s.expires ++ [⟨k, now, cfg.expires_after⟩] := he
        rw [List.mem_append] at he2
        rcases he2 with he2 | he2
        · exact hb e he2 t (by simp [insTimes, ht])
        · simp only [List.mem_singleton] at he2
          subst he2
          exact hpc.1 t ht
      obtain ⟨h1, h2⟩ := ih (s.insert cfg now k v) hinv2 hb2 hpc.2
      rw [hrun]
      refine ⟨h1, fun l hl => ?_⟩
      have hsub2 : List.Sublist (s.insert cfg now k v).expires
          (l ++ [⟨k, now, cfg.expires_after⟩]) :=
        hl.append (List.Sublist.refl _)
      have h3 := h2 (l ++ [⟨k, now, cfg.expires_after⟩]) hsub2
      simpa [List.append_assoc, insertedEntries] using h3
    | evict now =>
      have hrun : runOps cfg (CacheOp.evict now :: ops) s =
          runOps cfg ops (applyOp cfg s (CacheOp.evict now)) := rfl
      have hs2 : (applyOp cfg s (CacheOp.evict now)).expires =
          s.expires.dropWhile (EntryExpire.isDue now) := by
        rw [applyOp_evict_eq]
      have hsub : List.Sublist (applyOp cfg s (CacheOp.evict now)).expires
          s.expires := by
        rw [hs2]
        exact List.dropWhile_sublist _
      have hinv2 := queueInv_sublist cfg _ _ hsub hinv
      have hb2 : ∀ e ∈ (applyOp cfg s (CacheOp.evict now)).expires,
          ∀ t ∈ insTimes ops, e.created_at ≤ t := by
        intro e he t ht
        exact hb e (hsub.subset he) t (by simpa [insTimes] using ht)
      have hp2 : List.Pairwise (fun a b => a ≤ b) (insTimes ops) := by
        simpa [insTimes] using hp
      obtain ⟨h1, h2⟩ := ih (applyOp cfg s (CacheOp.evict now)) hinv2 hb2 hp2
      rw [hrun]
      refine ⟨h1, fun l hl => ?_⟩
      have h3 := h2 l (hsub.trans hl)
      simpa [insertedEntries] using h3

/-- From the queue invariant, the expiration instants
`created_at + ttl` are non-decreasing front-to-back. -/
theorem pairwise_expiry_of_queueInv (cfg : AsyncTtlConfig)
    (q : List (EntryExpire K)) (h : QueueInv cfg q) :
    List.Pairwise (fun a b => a ≤ b)
      (q.map fun e => e.created_at + e.expires_after) := by
  rw [List.pairwise_map]
  refine h.1.imp_of_mem ?_
  intro a b ha hb hab
  rw [h.2 a ha, h.2 b hb]
  omega

/-- C4: for every sequence of inserts (single fixed TTL, non-decreasing
insertion instants) interleaved with eviction passes, starting from the
empty cache: the queue's front-to-back order equals the insertion order
of the records it still contains (it is a sublist of the full insertion
sequence), the expiration instants `created_at + ttl` are non-decreasing
front-to-back, and both insert (back append) and eviction (front pops)
preserve the queue invariant. -/
theorem queue_order_and_expiry_invariant [DecidableEq K]
    (cfg : AsyncTtlConfig) (ops : List (CacheOp K V))
    (hmono : List.Pairwise (fun a b => a ≤ b) (insTimes ops)) :
    List.Sublist (runOps cfg ops (CacheState.empty K V)).expires
      (insertedEntries cfg ops) ∧
    List.Pairwise (fun a b => a ≤ b)
      ((runOps cfg ops (CacheState.empty K V)).expires.map
        (fun e => e.created_at + e.expires_after)) ∧
    (∀ (s : CacheState K V) (now : Nat) (k : K) (v : V),
      QueueInv cfg s.expires → (∀ e ∈ s.expires, e.created_at ≤ now) →
      QueueInv cfg (s.insert cfg now k v).expires) ∧
    (∀ (s : CacheState K V) (now : Nat),
      QueueInv cfg s.expires →
      QueueInv cfg (applyOp cfg s (CacheOp.evict now)).expires) := by
  obtain ⟨h1, h2⟩ := runOps_queueInv cfg ops (CacheState.empty K V)
    (queueInv_nil cfg) (by intro e he; simp [CacheState.empty] at he) hmono
  refine ⟨?_, ?_, ?_, ?_⟩
  · simpa using h2 [] (List.nil_sublist _)
  · exact pairwise_expiry_of_queueInv cfg _ h1
  · intro s now k v hq hle
    exact queueInv_append cfg s.expires now k hq hle
  · intro s now hq
    have hs2 : (applyOp cfg s (CacheOp.evict now)).expires =
        s.expires.dropWhile (EntryExpire.isDue now) := by
      rw [applyOp_evict_eq]
    rw [hs2]
    exact queueInv_sublist cfg _ _ (List.dropWhile_sublist _) hq

/-- Witness for C4: three inserts at instants 0, 2, 5 with an eviction
pass at instant 3 in between; the final queue is a sublist of the
inserted-record sequence. -/
theorem queue_order_and_expiry_invariant_witness :
    List.Sublist
      (runOps ⟨10, 100, 5⟩
        [CacheOp.ins 0 1 10, CacheOp.ins 2 2 20, CacheOp.evict 3,
          CacheOp.ins 5 3 30]
        (CacheState.empty Nat Nat)).expires
      (insertedEntries ⟨10, 100, 5⟩
        [CacheOp.ins 0 1 10, CacheOp.ins 2 2 20, CacheOp.evict 3,
          CacheOp.ins 5 3 30]) :=
  (queue_order_and_expiry_invariant ⟨10, 100, 5⟩
    [CacheOp.ins 0 1 10, CacheOp.ins 2 2 20, CacheOp.evict 3,
      CacheOp.ins 5 3 30] (by decide)).1
